import Mathlib

/-!
Verification of the market-clearing and settlement engine of `app.py`
(classroom market experiment).

The engine is embedded shallowly: each database row becomes a record, each
SQL `UPDATE` becomes a pure record update, and the numpy histogram /
cumulative-sum computation becomes explicit summation.  Machine integers of
the source (Python ints, SQL INTEGER) are modelled as `Int`; counts as `Nat`.
Only the columns the engine reads or writes are modelled (`info` and
`class_name` are carried along by the source only into history records and
never influence clearing or settlement, so they are omitted).
-/

/-- Source constant `MAX_PRICE = 300` (app.py line 47). -/
def MAX_PRICE : Nat := 300

/-- Source constant `MAX_UNITS = 5` (app.py line 48). -/
def MAX_UNITS : Nat := 5

/-- One row of the `players` table, restricted to the columns the clearing and
settlement engine reads or writes.  `choice` is `1` (buy), `-1` (sell),
`0` (abstain) or NULL (`none`); `mus` holds the columns `mu1 .. mu5` in order
(`none` = SQL NULL); `unit` is the signed matched-unit count written by
settlement; `endowment` is the holdings count. -/
structure Player where
  id : Nat
  money : Int
  endowment : Int
  choice : Option Int
  submitted : Bool
  qty : Option Int
  mus : List (Option Int)
  unit : Option Int
  payoff : Option Int
  deriving DecidableEq, Repr

/-- The row of the `group_info` table (round state). -/
structure GroupInfo where
  value : Int
  final_price : Option Int
  round : Int
  confirmed : Bool
  show_result : Bool
  show_graph : Bool
  deriving DecidableEq, Repr

/-- `player.get("mu{i+1}")`: the `i`-th valuation slot (0-based), `none` when
the column is NULL or beyond `mu5`. -/
def getMu (p : Player) (i : Nat) : Option Int :=
  p.mus.getD i none

/-- The declared quantity as the source reads it: `int(p.get("qty") or 0)` /
`player.get("qty", 0)` — NULL becomes 0, and a negative value makes every
`range` over it empty, so it is clamped to a natural number. -/
def qtyN (p : Player) : Nat :=
  (p.qty.getD 0).toNat

/-- The populated valuation values among the first `qty` slots, in slot order:
exactly the values the engine's loops `for i in range(1, qty+1): if mu is not
None` visit. -/
def declaredVals (p : Player) : List Int :=
  (List.range (qtyN p)).filterMap (fun i => getMu p i)

/-- `buy_hist[v]` built by `compute_demand_supply_curves_fast`: over players
with `choice == 1`, the number of populated slots among the first `qty` whose
value equals `v` (app.py lines 385-392). -/
def buyHist (players : List Player) (v : Nat) : Nat :=
  (players.map (fun p =>
    if p.choice = some 1 then (declaredVals p).count ((v : Int)) else 0)).sum

/-- `sell_hist[v]` built by `compute_demand_supply_curves_fast` over players
with `choice == -1` (app.py lines 393-397). -/
def sellHist (players : List Player) (v : Nat) : Nat :=
  (players.map (fun p =>
    if p.choice = some (-1) then (declaredVals p).count ((v : Int)) else 0)).sum

/-- `sumFrom f p n = f p + f (p+1) + ... + f (p+n-1)`: the building block of
numpy's cumulative sums. -/
def sumFrom (f : Nat → Nat) : Nat → Nat → Nat
  | _, 0 => 0
  | p, n + 1 => f p + sumFrom f (p + 1) n

/-- Entry `p` of the demand array of `compute_demand_supply_curves_fast`:
`demand = buy_hist[::-1].cumsum()[::-1]`, i.e. the sum of `buy_hist` over
prices `p .. MAX_PRICE` (app.py line 400). -/
def demandFast (players : List Player) (p : Nat) : Nat :=
  sumFrom (buyHist players) p (MAX_PRICE + 1 - p)

/-- Entry `p` of the supply array: `supply = sell_hist.cumsum()`, i.e. the sum
of `sell_hist` over prices `0 .. p` (app.py line 402). -/
def supplyFast (players : List Player) (p : Nat) : Nat :=
  sumFrom (sellHist players) 0 (p + 1)

/-- `trade_volume = np.minimum(demand_arr, supply_arr)` at price `p`
(app.py line 284). -/
def tradeVolume (players : List Player) (p : Nat) : Nat :=
  min (demandFast players p) (supplyFast players p)

/-- Semantics of `np.argmax` on the array `[f 0, f 1, ..., f n]`: the first
index attaining the maximum (a later index replaces the current one only when
its value is strictly greater). -/
def argmaxFirst (f : Nat → Nat) : Nat → Nat
  | 0 => 0
  | n + 1 => if f (argmaxFirst f n) < f (n + 1) then n + 1 else argmaxFirst f n

/-- `price = int(prices_arr[int(np.argmax(trade_volume))])` of `set_payoffs`
(app.py line 285): since `prices_arr = arange(MAX_PRICE+1)`, the price is the
first index of `[0 .. MAX_PRICE]` maximising the trade volume.  The
`len(trade_volume) > 0` guard of the source is always true (the array has
`MAX_PRICE + 1` entries). -/
def clearingPrice (players : List Player) : Nat :=
  argmaxFirst (tradeVolume players) MAX_PRICE

/-- The reference (naive, per-price) demand stated by the specification:
the total count, across Buy participants, of populated valuation slots within
the first `declared_quantity` slots whose value is `>= price`.  Compare
`_get_unit_demands` (app.py lines 261-263). -/
def demandRef (players : List Player) (price : Int) : Nat :=
  (players.map (fun p =>
    if p.choice = some 1
    then (declaredVals p).countP (fun v => decide (price ≤ v)) else 0)).sum

/-- The reference (naive, per-price) supply: populated slots within the first
`declared_quantity` slots of Sell participants whose value is `<= price`.
Compare `_get_unit_supplies` (app.py lines 265-267). -/
def supplyRef (players : List Player) (price : Int) : Nat :=
  (players.map (fun p =>
    if p.choice = some (-1)
    then (declaredVals p).countP (fun v => decide (v ≤ price)) else 0)).sum

/-- Lexicographic order on the `(mu, player_id)` pairs, exactly Python's tuple
comparison used by `sorted` in `set_payoffs`. -/
def tupLe (a b : Int × Nat) : Bool :=
  decide (a.1 < b.1) || (a.1 == b.1 && decide (a.2 ≤ b.2))

/-- Insert into a list sorted by `le`. -/
def insertLe (le : Int × Nat → Int × Nat → Bool) (x : Int × Nat) :
    List (Int × Nat) → List (Int × Nat)
  | [] => [x]
  | y :: ys => if le x y then x :: y :: ys else y :: insertLe le x ys

/-- Sorting by `le`.  On `(Int × Nat)` pairs the lexicographic order is total
and antisymmetric, so the sorted list is unique and this agrees with Python's
`sorted`. -/
def sortBy (le : Int × Nat → Int × Nat → Bool) : List (Int × Nat) → List (Int × Nat)
  | [] => []
  | x :: xs => insertLe le x (sortBy le xs)

/-- The `(mu, id)` pairs one buyer contributes to `buy_units` in `set_payoffs`
(app.py lines 288-294): for `choice == 1`, every populated slot among the
first `qty` with value `>= price`. -/
def playerBuySlots (price : Int) (p : Player) : List (Int × Nat) :=
  if p.choice = some 1 then
    (List.range (qtyN p)).filterMap (fun i =>
      (getMu p i).bind (fun v => if price ≤ v then some (v, p.id) else none))
  else []

/-- The `(mu, id)` pairs one seller contributes to `sell_units`
(app.py lines 295-300): for `choice == -1`, populated slots with value
`<= price`. -/
def playerSellSlots (price : Int) (p : Player) : List (Int × Nat) :=
  if p.choice = some (-1) then
    (List.range (qtyN p)).filterMap (fun i =>
      (getMu p i).bind (fun v => if v ≤ price then some (v, p.id) else none))
  else []

/-- The unsorted `buy_units` list comprehension of `set_payoffs`. -/
def rawBuyUnits (players : List Player) (price : Int) : List (Int × Nat) :=
  (players.map (playerBuySlots price)).flatten

/-- The unsorted `sell_units` list comprehension of `set_payoffs`. -/
def rawSellUnits (players : List Player) (price : Int) : List (Int × Nat) :=
  (players.map (playerSellSlots price)).flatten

/-- `buy_units = sorted(..., reverse=True)`: descending lexicographic order. -/
def buyUnits (players : List Player) (price : Int) : List (Int × Nat) :=
  sortBy (fun a b => tupLe b a) (rawBuyUnits players price)

/-- `sell_units = sorted(...)`: ascending lexicographic order. -/
def sellUnits (players : List Player) (price : Int) : List (Int × Nat) :=
  sortBy tupLe (rawSellUnits players price)

/-- `trades = min(len(buy_units), len(sell_units))` (app.py line 302). -/
def tradesCount (players : List Player) (price : Int) : Nat :=
  min (buyUnits players price).length (sellUnits players price).length

/-- The dictionary entry `matched_buyers[pid]` (resp. `matched_sellers[pid]`)
after the matching loop `for i in range(trades)`: the number of entries with
player id `pid` among the first `trades` elements of the sorted unit list
(app.py lines 303-308). -/
def matchedCount (units : List (Int × Nat)) (n : Nat) (pid : Nat) : Nat :=
  (units.take n).countP (fun u => u.2 == pid)

/-- The signed `unit` value `set_payoffs` assigns to a participant
(app.py lines 315-319): matched buys for a buyer, minus matched sells for a
seller, `0` otherwise. -/
def matchedUnits (players : List Player) (price : Int) (p : Player) : Int :=
  if p.choice = some 1 then
    ((matchedCount (buyUnits players price) (tradesCount players price) p.id : Nat) : Int)
  else if p.choice = some (-1) then
    -((matchedCount (sellUnits players price) (tradesCount players price) p.id : Nat) : Int)
  else 0

/-- The pre-clearing default of `set_payoffs` (app.py line 277):
`UPDATE players SET choice = 0, qty = 0, submitted = TRUE WHERE submitted = FALSE`. -/
def defaultUnsubmitted (p : Player) : Player :=
  if p.submitted then p
  else { p with choice := some 0, qty := some 0, submitted := true }

/-- The settlement update of `set_payoffs` for one participant
(app.py lines 321-326): `money = money - unit * price`,
`endowment = endowment + unit`, `payoff = int(group_value * endowment + money)`
(the `int(..)` is the identity on integer inputs), and the `unit` column is
written. -/
def settlePlayer (groupValue price u : Int) (p : Player) : Player :=
  { p with
    unit := some u
    money := p.money - u * price
    endowment := p.endowment + u
    payoff := some (groupValue * (p.endowment + u) + (p.money - u * price)) }

/-- The clearing-and-settlement core of `set_payoffs` (app.py lines 270-337):
default the unsubmitted, choose the clearing price, match units, settle every
participant; returns the price and the updated player rows. -/
def set_payoffs (groupValue : Int) (players0 : List Player) : Int × List Player :=
  let players := players0.map defaultUnsubmitted
  let price : Int := Int.ofNat (clearingPrice players)
  (price, players.map (fun p => settlePlayer groupValue price (matchedUnits players price p) p))

/-- `padded_mus = mu_values + [None] * (MAX_UNITS - len(mu_values))`
(app.py line 252). -/
def padMus (muValues : List Int) : List (Option Int) :=
  muValues.map some ++ List.replicate (MAX_UNITS - muValues.length) none

/-- `submit_player_decision` (app.py lines 246-259) as an update of one player
row: `SET choice = ?, submitted = TRUE, qty = ?, mu1..mu5 = padded`. -/
def submit_player_decision (p : Player) (choice qty : Int) (muValues : List Int) : Player :=
  { p with
    choice := some choice
    submitted := true
    qty := some qty
    mus := padMus muValues }

/-- The `group_info` update of `next_round` (app.py line 343):
`round = round + 1, final_price = NULL, confirmed = FALSE, show_result = FALSE,
show_graph = FALSE`.  The `value` column is untouched. -/
def next_round_group (g : GroupInfo) : GroupInfo :=
  { g with
    round := g.round + 1
    final_price := none
    confirmed := false
    show_result := false
    show_graph := false }

/-- The per-player update of `next_round` (app.py line 344):
`submitted = FALSE, payoff = NULL, unit = NULL, choice = NULL, qty = NULL,
mu1..mu5 = NULL`.  `money` and `endowment` are untouched. -/
def next_round_player (p : Player) : Player :=
  { p with
    submitted := false
    payoff := none
    unit := none
    choice := none
    qty := none
    mus := List.replicate MAX_UNITS none }

/-- `next_round` (app.py lines 339-346). -/
def next_round (g : GroupInfo) (players : List Player) : GroupInfo × List Player :=
  (next_round_group g, players.map next_round_player)

/-- Data-model invariant of the specification: every populated valuation value
(within the declared range) lies in the price domain `[0, MAX_PRICE]`.  The
source stores such values into histogram cells `0 .. MAX_PRICE`; an
out-of-domain value would make numpy wrap or fault, which is outside the
model. -/
def ValidVals (players : List Player) : Prop :=
  ∀ p ∈ players, ∀ v ∈ declaredVals p, 0 ≤ v ∧ v ≤ (MAX_PRICE : Int)

instance : DecidablePred ValidVals := fun players => by
  unfold ValidVals; infer_instance

/-- Distinct primary keys: the `players.id` column is a primary key, so rows
have pairwise distinct ids. -/
def DistinctIds (players : List Player) : Prop :=
  (players.map (fun p => p.id)).Nodup

instance : DecidablePred DistinctIds := fun players => by
  unfold DistinctIds; infer_instance

/-! ## Concrete records used by witnesses and counterexamples -/

/-- A single-unit participant record: money/holdings as `initialize_player`
creates them, one populated valuation slot. -/
def mkP (i : Nat) (ch mu1 : Int) : Player :=
  { id := i, money := 485, endowment := 3, choice := some ch, submitted := true,
    qty := some 1, mus := [some mu1, none, none, none, none], unit := none, payoff := none }

/-- Scenario A of the specification: two buyers valuing 10 and 8, two sellers
asking 5 and 6. -/
def marketA : List Player := [mkP 1 1 10, mkP 2 1 8, mkP 3 (-1) 5, mkP 4 (-1) 6]

/-- A buyer whose settlement lands on Scenario D numbers:
`money = 150, holdings = 2`; buying one unit at price 100 yields
`money' = 50, holdings' = 3`. -/
def scenarioD : Player :=
  { id := 7, money := 150, endowment := 2, choice := some 1, submitted := true,
    qty := some 1, mus := [some 150, none, none, none, none], unit := none, payoff := none }

/-- A participant who never submitted (defaulted to abstain by clearing). -/
def abstainer : Player :=
  { id := 9, money := 485, endowment := 3, choice := none, submitted := false,
    qty := none, mus := [none, none, none, none, none], unit := none, payoff := none }

/-- A settled participant carrying a payoff into a round advance. -/
def roundPlayer : Player :=
  { id := 2, money := 485, endowment := 3, choice := some 1, submitted := true,
    qty := some 1, mus := [some 10, none, none, none, none], unit := some 1, payoff := some 5 }

/-- A freshly registered participant (nothing submitted yet). -/
def freshPlayer : Player :=
  { id := 3, money := 485, endowment := 3, choice := none, submitted := false,
    qty := none, mus := [none, none, none, none, none], unit := none, payoff := none }

/-- Scenario C: `declared_quantity = 3` but only slots 1 and 2 populated. -/
def cheater : Player :=
  { id := 1, money := 485, endowment := 3, choice := some 1, submitted := true,
    qty := some 3, mus := [some 10, some 8, none, none, none], unit := none, payoff := none }

/-- A well-formed seller, counterpart for the `playerSellSlots` witness. -/
def sellerC : Player :=
  { id := 2, money := 485, endowment := 3, choice := some (-1), submitted := true,
    qty := some 2, mus := [some 3, some 4, none, none, none], unit := none, payoff := none }

/-! ## Generic list helpers -/

lemma sum_map_add {α M : Type} [AddCommMonoid M] (l : List α) (f g : α → M) :
    (l.map (fun x => f x + g x)).sum = (l.map f).sum + (l.map g).sum := by
  induction l with
  | nil => simp
  | cons a t ih => simp [ih]; rw [add_add_add_comm]

lemma sum_map_sub {α : Type} (l : List α) (f g : α → Int) :
    (l.map (fun x => f x - g x)).sum = (l.map f).sum - (l.map g).sum := by
  induction l with
  | nil => simp
  | cons a t ih => simp [ih]; ring

lemma sum_map_mul_right {α : Type} (l : List α) (f : α → Int) (c : Int) :
    (l.map (fun x => f x * c)).sum = (l.map f).sum * c := by
  induction l with
  | nil => simp
  | cons a t ih => simp [ih]; ring

/-! ## The insertion sort used for `buy_units` / `sell_units` -/

lemma perm_insertLe (le : Int × Nat → Int × Nat → Bool) (x : Int × Nat) (l : List (Int × Nat)) :
    (insertLe le x l).Perm (x :: l) := by
  induction l with
  | nil => simp [insertLe]
  | cons y ys ih =>
    simp only [insertLe]
    split
    · exact List.Perm.refl _
    · exact ((ih.cons y).trans (List.Perm.swap x y ys))

lemma perm_sortBy (le : Int × Nat → Int × Nat → Bool) (l : List (Int × Nat)) :
    (sortBy le l).Perm l := by
  induction l with
  | nil => exact List.Perm.refl _
  | cons x xs ih => exact (perm_insertLe le x (sortBy le xs)).trans (ih.cons x)

/-! ## First-occurrence argmax (`np.argmax`) -/

lemma argmaxFirst_le (f : Nat → Nat) (n : Nat) : argmaxFirst f n ≤ n := by
  induction n with
  | zero => simp [argmaxFirst]
  | succ n ih =>
    simp only [argmaxFirst]
    split
    · exact Nat.le_refl _
    · exact Nat.le_trans ih (Nat.le_succ n)

lemma argmaxFirst_ge (f : Nat → Nat) (n : Nat) :
    ∀ i, i ≤ n → f i ≤ f (argmaxFirst f n) := by
  induction n with
  | zero =>
    intro i hi
    have : i = 0 := Nat.le_zero.mp hi
    subst this
    simp [argmaxFirst]
  | succ n ih =>
    intro i hi
    simp only [argmaxFirst]
    split
    · rename_i h
      rcases Nat.lt_succ_iff_lt_or_eq.mp (Nat.lt_succ_of_le hi) with h2 | h2
      · exact Nat.le_trans (ih i (Nat.lt_succ_iff.mp h2)) (Nat.le_of_lt h)
      · exact Nat.le_of_eq (congrArg f h2)
    · rename_i h
      rcases Nat.lt_succ_iff_lt_or_eq.mp (Nat.lt_succ_of_le hi) with h2 | h2
      · exact ih i (Nat.lt_succ_iff.mp h2)
      · rw [h2]; exact Nat.le_of_not_lt h

lemma argmaxFirst_firstmax (f : Nat → Nat) (n : Nat) :
    ∀ i, i ≤ n → f i = f (argmaxFirst f n) → argmaxFirst f n ≤ i := by
  induction n with
  | zero => intro i _ _; simp [argmaxFirst]
  | succ n ih =>
    intro i hi he
    by_cases h : f (argmaxFirst f n) < f (n + 1)
    · rw [argmaxFirst, if_pos h] at he ⊢
      by_cases h2 : i ≤ n
      · exact absurd he (Nat.ne_of_lt (Nat.lt_of_le_of_lt (argmaxFirst_ge f n i h2) h))
      · omega
    · rw [argmaxFirst, if_neg h] at he ⊢
      by_cases h2 : i ≤ n
      · exact ih i h2 he
      · exact Nat.le_trans (argmaxFirst_le f n) (by omega)

/-! ## Small facts about the record updates -/

lemma defaultUnsubmitted_id (p : Player) : (defaultUnsubmitted p).id = p.id := by
  unfold defaultUnsubmitted
  split <;> rfl

lemma defaultUnsubmitted_money (p : Player) : (defaultUnsubmitted p).money = p.money := by
  unfold defaultUnsubmitted
  split <;> rfl

lemma defaultUnsubmitted_endowment (p : Player) :
    (defaultUnsubmitted p).endowment = p.endowment := by
  unfold defaultUnsubmitted
  split <;> rfl

lemma distinct_map_default {players : List Player} (h : DistinctIds players) :
    DistinctIds (players.map defaultUnsubmitted) := by
  unfold DistinctIds at h ⊢
  rw [List.map_map]
  have : ((fun p : Player => p.id) ∘ defaultUnsubmitted) = fun p : Player => p.id := by
    funext p
    exact defaultUnsubmitted_id p
  rw [this]
  exact h

lemma distinct_pairwise {players : List Player} (h : DistinctIds players) :
    players.Pairwise (fun a b => a.id ≠ b.id) := by
  unfold DistinctIds at h
  exact List.pairwise_map.mp h

/-! ## Claim theorems: settlement and lifecycle -/

/-- C5 (confirmed).  Settlement updates a participant record by
`money' = money - matched_units * clearing_price`,
`holdings' = holdings + matched_units`, and
`payoff = unit_value * holdings' + money'` (an integer, so the source's
`int(...)` truncation is the identity); in particular with
`unit_value = 100`, `holdings' = 3`, `money' = 50` the payoff is `350`. -/
theorem claim_C5 :
    (∀ (gv price u : Int) (p : Player),
      (settlePlayer gv price u p).money = p.money - u * price ∧
      (settlePlayer gv price u p).endowment = p.endowment + u ∧
      (settlePlayer gv price u p).payoff
        = some (gv * (p.endowment + u) + (p.money - u * price))) ∧
    ((settlePlayer 100 100 1 scenarioD).money = 50 ∧
     (settlePlayer 100 100 1 scenarioD).endowment = 3 ∧
     (settlePlayer 100 100 1 scenarioD).payoff = some 350) := by
  exact ⟨fun gv price u p => ⟨rfl, rfl, rfl⟩, by decide⟩

/-- C6 (confirmed).  A participant whose matched unit count is `0` keeps their
money and holdings unchanged through settlement. -/
theorem claim_C6 (gv price : Int) (players : List Player) (p : Player)
    (h : matchedUnits players price p = 0) :
    (settlePlayer gv price (matchedUnits players price p) p).money = p.money ∧
    (settlePlayer gv price (matchedUnits players price p) p).endowment = p.endowment := by
  rw [h]
  constructor
  · show p.money - 0 * price = p.money
    ring
  · show p.endowment + 0 = p.endowment
    ring

theorem claim_C6_witness :
    matchedUnits [abstainer] 0 abstainer = 0 ∧
    (settlePlayer 100 0 (matchedUnits [abstainer] 0 abstainer) abstainer).money
      = abstainer.money ∧
    (settlePlayer 100 0 (matchedUnits [abstainer] 0 abstainer) abstainer).endowment
      = abstainer.endowment :=
  ⟨by decide,
   (claim_C6 100 0 [abstainer] abstainer (by decide)).1,
   (claim_C6 100 0 [abstainer] abstainer (by decide)).2⟩

/-- C7 counterexample (claim falsified).  The claim asserts that `next_round`
preserves every participant's `payoff`; the source statement
`UPDATE players SET submitted=FALSE, payoff=NULL, ...` (app.py line 344) sets
the payoff column to NULL, so a participant entering the round advance with
payoff `5` leaves it with no payoff. -/
theorem claim_C7_cex : (next_round_player roundPlayer).payoff ≠ roundPlayer.payoff := by
  decide

/-- C7 as amended (proved).  `next_round` increments `round_number` by one,
clears `clearing_price` (`final_price`), the cleared flags (`show_result`,
`show_graph`) and `confirmed`, leaves the round's `unit_value` (`value`)
unchanged, and resets every participant's `submitted`, `side` (`choice`),
`declared_quantity` (`qty`), valuations (`mu1..mu5`) and `matched_units`
(`unit`) — and also their `payoff` — to the unset state, while preserving
`money` and `holdings` (`endowment`). -/
theorem claim_C7_amended (g : GroupInfo) (players : List Player) (p : Player) :
    (next_round g players).1.round = g.round + 1 ∧
    (next_round g players).1.final_price = none ∧
    (next_round g players).1.confirmed = false ∧
    (next_round g players).1.show_result = false ∧
    (next_round g players).1.show_graph = false ∧
    (next_round g players).1.value = g.value ∧
    (next_round g players).2 = players.map next_round_player ∧
    (next_round_player p).submitted = false ∧
    (next_round_player p).choice = none ∧
    (next_round_player p).qty = none ∧
    (next_round_player p).mus = List.replicate MAX_UNITS none ∧
    (next_round_player p).unit = none ∧
    (next_round_player p).payoff = none ∧
    (next_round_player p).money = p.money ∧
    (next_round_player p).endowment = p.endowment :=
  ⟨rfl, rfl, rfl, rfl, rfl, rfl, rfl, rfl, rfl, rfl, rfl, rfl, rfl, rfl, rfl⟩

/-- C9 counterexample (claim falsified).  The claim asserts that
`submit_player_decision` rejects an Abstain submission carrying valuations and
any out-of-domain valuation, leaving the record unchanged.  The source
function is a bare `UPDATE` with no validation (app.py lines 246-259): an
abstain (`choice = 0`) submission with a non-empty valuation list, and a
valuation `400 > MAX_PRICE`, are both written into the record. -/
theorem claim_C9_cex :
    submit_player_decision freshPlayer 0 1 [50] ≠ freshPlayer ∧
    (submit_player_decision freshPlayer 0 1 [50]).submitted = true ∧
    (submit_player_decision freshPlayer 0 1 [50]).choice = some 0 ∧
    (submit_player_decision freshPlayer 0 1 [50]).mus
      = [some 50, none, none, none, none] ∧
    (submit_player_decision freshPlayer 1 1 [400]).mus
      = [some 400, none, none, none, none] := by
  decide

/-- C9 as amended (proved).  `submit_player_decision` performs no validation
at all: for every input it unconditionally writes the given side, quantity and
padded valuation list into the record and marks it submitted (range and
abstain checks live only in the excluded UI layer). -/
theorem claim_C9_amended (p : Player) (choice qty : Int) (muValues : List Int) :
    (submit_player_decision p choice qty muValues).choice = some choice ∧
    (submit_player_decision p choice qty muValues).submitted = true ∧
    (submit_player_decision p choice qty muValues).qty = some qty ∧
    (submit_player_decision p choice qty muValues).mus = padMus muValues ∧
    (submit_player_decision p choice qty muValues).money = p.money ∧
    (submit_player_decision p choice qty muValues).endowment = p.endowment :=
  ⟨rfl, rfl, rfl, rfl, rfl, rfl⟩

/-! ## Claim C8: absent declared slots -/

lemma filter_map_eq_filterMap (l : List Int) (q : Int → Prop) [DecidablePred q]
    (g : Int → Int × Nat) :
    (l.filter (fun v => decide (q v))).map g
      = l.filterMap (fun v => if q v then some (g v) else none) := by
  induction l with
  | nil => rfl
  | cons a t ih =>
    by_cases h : q a <;> simp [h, ih]

set_option maxRecDepth 4000 in
/-- C8 counterexample (claim falsified).  Scenario C input: `cheater` declares
`qty = 3` with only slots 1 and 2 populated.  The claim asserts clearing
aborts with a fatal integrity error; the source instead guards every slot read
with `is not None` (app.py lines 292, 299, 391, 396) and proceeds: the unit
list contains exactly the two populated slots and the demand curve counts 2
eligible units at price 5 (and 1 at price 9) — the absent third slot is
silently skipped and the computation completes normally. -/
theorem claim_C8_cex :
    playerBuySlots 5 cheater = [(10, 1), (8, 1)] ∧
    demandFast [cheater] 5 = 2 ∧
    demandFast [cheater] 9 = 1 := by
  decide

/-- C8 as amended (proved).  An absent valuation slot within the declared
range is never an error: clearing reads, for each participant, exactly the
populated values among the first `declared_quantity` slots (`declaredVals`),
so a buyer's (seller's) unit list is precisely the filter of those values by
the price threshold — absent slots simply contribute nothing. -/
theorem claim_C8_amended (price : Int) (p : Player) :
    (p.choice = some 1 → playerBuySlots price p
      = ((declaredVals p).filter (fun v => decide (price ≤ v))).map (fun v => (v, p.id))) ∧
    (p.choice = some (-1) → playerSellSlots price p
      = ((declaredVals p).filter (fun v => decide (v ≤ price))).map (fun v => (v, p.id))) := by
  constructor
  · intro h
    rw [playerBuySlots, if_pos h, filter_map_eq_filterMap, declaredVals,
      List.filterMap_filterMap]
  · intro h
    rw [playerSellSlots, if_pos h, filter_map_eq_filterMap, declaredVals,
      List.filterMap_filterMap]

theorem claim_C8_amended_witness :
    (cheater.choice = some 1 ∧
      playerBuySlots 5 cheater
        = ((declaredVals cheater).filter (fun v => decide ((5 : Int) ≤ v))).map
            (fun v => (v, cheater.id))) ∧
    (sellerC.choice = some (-1) ∧
      playerSellSlots 5 sellerC
        = ((declaredVals sellerC).filter (fun v => decide (v ≤ (5 : Int)))).map
            (fun v => (v, sellerC.id))) :=
  ⟨⟨by decide, (claim_C8_amended 5 cheater).1 (by decide)⟩,
   ⟨by decide, (claim_C8_amended 5 sellerC).2 (by decide)⟩⟩

/-! ## Claim C2: the histogram + cumulative-sum curves equal the naive curves -/

lemma sumFrom_zero_fn (p n : Nat) : sumFrom (fun _ => 0) p n = 0 := by
  induction n generalizing p with
  | zero => rfl
  | succ n ih => simp [sumFrom, ih]

lemma sumFrom_add (f g : Nat → Nat) (p n : Nat) :
    sumFrom (fun v => f v + g v) p n = sumFrom f p n + sumFrom g p n := by
  induction n generalizing p with
  | zero => rfl
  | succ n ih => simp [sumFrom, ih]; omega

lemma sumFrom_congr {f g : Nat → Nat} (h : ∀ v, f v = g v) (p n : Nat) :
    sumFrom f p n = sumFrom g p n := by
  induction n generalizing p with
  | zero => rfl
  | succ n ih => simp [sumFrom, h, ih]

lemma sumFrom_indicator (a : Int) (p n : Nat) :
    sumFrom (fun v => if a = ((v : Nat) : Int) then 1 else 0) p n
      = if ((p : Int) ≤ a ∧ a < (p : Int) + (n : Int)) then 1 else 0 := by
  induction n generalizing p with
  | zero =>
    simp only [sumFrom]
    split
    · omega
    · rfl
  | succ n ih =>
    simp only [sumFrom, ih (p + 1)]
    push_cast
    split_ifs <;> omega

lemma count_sumFrom_ge (L : List Int) (p n : Nat)
    (hb : ∀ x ∈ L, x < (p : Int) + (n : Int)) :
    sumFrom (fun v => L.count ((v : Nat) : Int)) p n
      = L.countP (fun v => decide ((p : Int) ≤ v)) := by
  induction L with
  | nil =>
    rw [sumFrom_congr (g := fun _ => 0) (fun v => List.count_nil _), sumFrom_zero_fn]
    rfl
  | cons a t ih =>
    have hstep : ∀ v : Nat, (a :: t).count ((v : Nat) : Int)
        = t.count ((v : Nat) : Int) + (if a = ((v : Nat) : Int) then 1 else 0) := by
      intro v
      rw [List.count_cons]
      congr 1
      simp [beq_iff_eq]
    rw [sumFrom_congr hstep, sumFrom_add, sumFrom_indicator,
      ih (fun x hx => hb x (List.mem_cons_of_mem a hx)), List.countP_cons]
    have ha : a < (p : Int) + (n : Int) := hb a (List.mem_cons_self a t)
    simp only [decide_eq_true_eq]
    split_ifs <;> omega

lemma count_sumFrom_le (L : List Int) (q : Nat)
    (hb : ∀ x ∈ L, 0 ≤ x) :
    sumFrom (fun v => L.count ((v : Nat) : Int)) 0 (q + 1)
      = L.countP (fun v => decide (v ≤ (q : Int))) := by
  induction L with
  | nil =>
    rw [sumFrom_congr (g := fun _ => 0) (fun v => List.count_nil _), sumFrom_zero_fn]
    rfl
  | cons a t ih =>
    have hstep : ∀ v : Nat, (a :: t).count ((v : Nat) : Int)
        = t.count ((v : Nat) : Int) + (if a = ((v : Nat) : Int) then 1 else 0) := by
      intro v
      rw [List.count_cons]
      congr 1
      simp [beq_iff_eq]
    rw [sumFrom_congr hstep, sumFrom_add, sumFrom_indicator,
      ih (fun x hx => hb x (List.mem_cons_of_mem a hx)), List.countP_cons]
    have ha : 0 ≤ a := hb a (List.mem_cons_self a t)
    simp only [decide_eq_true_eq]
    push_cast
    split_ifs <;> omega

lemma buyHist_cons (q : Player) (players : List Player) (v : Nat) :
    buyHist (q :: players) v
      = (if q.choice = some 1 then (declaredVals q).count ((v : Int)) else 0)
        + buyHist players v := by
  simp [buyHist, Nat.add_comm]

lemma sellHist_cons (q : Player) (players : List Player) (v : Nat) :
    sellHist (q :: players) v
      = (if q.choice = some (-1) then (declaredVals q).count ((v : Int)) else 0)
        + sellHist players v := by
  simp [sellHist, Nat.add_comm]

lemma demandFast_eq_ref (players : List Player) (p : Nat) (hp : p ≤ MAX_PRICE)
    (hv : ValidVals players) :
    demandFast players p = demandRef players ((p : Nat) : Int) := by
  induction players with
  | nil =>
    unfold demandFast demandRef
    rw [sumFrom_congr (g := fun _ => 0) (fun v => by simp [buyHist]), sumFrom_zero_fn]
    rfl
  | cons q t ih =>
    have hq := hv q (List.mem_cons_self q t)
    have ht : ValidVals t := fun r hr => hv r (List.mem_cons_of_mem q hr)
    unfold demandFast at ih ⊢
    rw [sumFrom_congr (fun v => buyHist_cons q t v), sumFrom_add, ih ht]
    unfold demandRef
    rw [List.map_cons, List.sum_cons]
    congr 1
    by_cases hc : q.choice = some 1
    · rw [if_pos hc, sumFrom_congr (g := fun v => (declaredVals q).count ((v : Nat) : Int))
        (fun v => by rw [if_pos hc])]
      apply count_sumFrom_ge
      intro x hx
      have hx2 := (hq x hx).2
      have hcast : ((MAX_PRICE + 1 - p : Nat) : Int) = ((MAX_PRICE : Nat) : Int) + 1 - p := by
        have : p ≤ MAX_PRICE + 1 := Nat.le_succ_of_le hp
        push_cast [Nat.cast_sub this]
        ring
      rw [hcast]
      unfold MAX_PRICE at hx2 ⊢
      omega
    · rw [if_neg hc, sumFrom_congr (g := fun _ => 0) (fun v => by rw [if_neg hc]),
        sumFrom_zero_fn]

lemma supplyFast_eq_ref (players : List Player) (p : Nat)
    (hv : ValidVals players) :
    supplyFast players p = supplyRef players ((p : Nat) : Int) := by
  induction players with
  | nil =>
    unfold supplyFast supplyRef
    rw [sumFrom_congr (g := fun _ => 0) (fun v => by simp [sellHist]), sumFrom_zero_fn]
    rfl
  | cons q t ih =>
    have hq := hv q (List.mem_cons_self q t)
    have ht : ValidVals t := fun r hr => hv r (List.mem_cons_of_mem q hr)
    unfold supplyFast at ih ⊢
    rw [sumFrom_congr (fun v => sellHist_cons q t v), sumFrom_add, ih ht]
    unfold supplyRef
    rw [List.map_cons, List.sum_cons]
    congr 1
    by_cases hc : q.choice = some (-1)
    · rw [if_pos hc, sumFrom_congr (g := fun v => (declaredVals q).count ((v : Nat) : Int))
        (fun v => by rw [if_pos hc])]
      apply count_sumFrom_le
      intro x hx
      exact (hq x hx).1
    · rw [if_neg hc, sumFrom_congr (g := fun _ => 0) (fun v => by rw [if_neg hc]),
        sumFrom_zero_fn]

/-- C2 (confirmed).  For every price `p` in the domain, the histogram +
cumulative-sum implementation (`compute_demand_supply_curves_fast`) returns
exactly the naive per-price counts: demand = number of populated slots within
the first `declared_quantity` slots of Buy participants with value `>= p`,
supply = the symmetric count for Sell participants with value `<= p`.
The hypothesis `ValidVals` is the data-model invariant that every populated
declared valuation lies in `[0, MAX_PRICE]` (the source's histogram is an
array indexed by value, so out-of-domain values are outside the model). -/
theorem claim_C2 (players : List Player) (p : Nat) (hp : p ≤ MAX_PRICE)
    (hv : ValidVals players) :
    demandFast players p = demandRef players ((p : Nat) : Int) ∧
    supplyFast players p = supplyRef players ((p : Nat) : Int) :=
  ⟨demandFast_eq_ref players p hp hv, supplyFast_eq_ref players p hv⟩

theorem claim_C2_witness :
    (7 ≤ MAX_PRICE ∧ ValidVals marketA) ∧
    (demandFast marketA 7 = demandRef marketA ((7 : Nat) : Int) ∧
     supplyFast marketA 7 = supplyRef marketA ((7 : Nat) : Int)) :=
  ⟨⟨by decide, by decide⟩, claim_C2 marketA 7 (by decide) (by decide)⟩

/-! ## Matching: per-participant unit counts -/

lemma mem_playerBuySlots {price : Int} {p : Player} {x : Int × Nat}
    (hx : x ∈ playerBuySlots price p) : x.2 = p.id ∧ p.choice = some 1 := by
  unfold playerBuySlots at hx
  by_cases h : p.choice = some 1
  · rw [if_pos h] at hx
    rcases List.mem_filterMap.mp hx with ⟨i, _, hfi⟩
    refine ⟨?_, h⟩
    cases hmu : getMu p i with
    | none => rw [hmu] at hfi; cases hfi
    | some v =>
      rw [hmu] at hfi
      simp only [Option.some_bind] at hfi
      split at hfi
      · cases hfi; rfl
      · cases hfi
  · rw [if_neg h] at hx
    cases hx

lemma mem_playerSellSlots {price : Int} {p : Player} {x : Int × Nat}
    (hx : x ∈ playerSellSlots price p) : x.2 = p.id ∧ p.choice = some (-1) := by
  unfold playerSellSlots at hx
  by_cases h : p.choice = some (-1)
  · rw [if_pos h] at hx
    rcases List.mem_filterMap.mp hx with ⟨i, _, hfi⟩
    refine ⟨?_, h⟩
    cases hmu : getMu p i with
    | none => rw [hmu] at hfi; cases hfi
    | some v =>
      rw [hmu] at hfi
      simp only [Option.some_bind] at hfi
      split at hfi
      · cases hfi; rfl
      · cases hfi
  · rw [if_neg h] at hx
    cases hx

lemma length_playerBuySlots_le (price : Int) (p : Player) :
    (playerBuySlots price p).length ≤ qtyN p := by
  unfold playerBuySlots
  split
  · exact Nat.le_trans (List.length_filterMap_le _ _) (Nat.le_of_eq (List.length_range _))
  · exact Nat.zero_le _

lemma length_playerSellSlots_le (price : Int) (p : Player) :
    (playerSellSlots price p).length ≤ qtyN p := by
  unfold playerSellSlots
  split
  · exact Nat.le_trans (List.length_filterMap_le _ _) (Nat.le_of_eq (List.length_range _))
  · exact Nat.zero_le _

/-- In a flattened per-player slot list whose entries carry their owner's id,
the entries with a given participant's id (a primary key, hence distinct) all
come from that participant's own slot list. -/
lemma countP_flatten_le_of (sl : Player → List (Int × Nat))
    (hid : ∀ q x, x ∈ sl q → x.2 = q.id)
    (players : List Player) (p : Player)
    (hd : players.Pairwise (fun a b => a.id ≠ b.id)) (hp : p ∈ players) :
    ((players.map sl).flatten).countP (fun u => u.2 == p.id) ≤ (sl p).length := by
  induction players with
  | nil => cases hp
  | cons q t ih =>
    rw [List.pairwise_cons] at hd
    rw [List.map_cons, List.flatten_cons, List.countP_append]
    rcases List.mem_cons.mp hp with h | h
    · subst h
      have htail : ((t.map sl).flatten).countP (fun u => u.2 == p.id) = 0 := by
        rw [List.countP_eq_zero]
        intro x hx
        rcases List.mem_flatten.mp hx with ⟨ls, hls, hxls⟩
        rcases List.mem_map.mp hls with ⟨r, hr, hrls⟩
        have hxid : x.2 = r.id := hid r x (hrls ▸ hxls)
        have hne : p.id ≠ r.id := hd.1 r hr
        simp only [beq_iff_eq, hxid]
        omega
      rw [htail, Nat.add_zero]
      exact List.countP_le_length _
    · have hhead : (sl q).countP (fun u => u.2 == p.id) = 0 := by
        rw [List.countP_eq_zero]
        intro x hx
        have hxid : x.2 = q.id := hid q x hx
        have hne : q.id ≠ p.id := hd.1 p h
        simp only [beq_iff_eq, hxid]
        omega
      rw [hhead, Nat.zero_add]
      exact ih hd.2 h

lemma countP_as_sum (l : List Player) (pr : Player → Bool) :
    (l.map (fun x => if pr x = true then 1 else 0)).sum = l.countP pr := by
  induction l with
  | nil => rfl
  | cons a t ih =>
    rw [List.map_cons, List.sum_cons, List.countP_cons, ih]
    exact Nat.add_comm _ _

/-- Among rows with pairwise distinct primary keys, exactly one row matches a
given id (provided a matching row exists). -/
lemma countP_eq_one_of (players : List Player)
    (hd : players.Pairwise (fun a b => a.id ≠ b.id)) (pid : Nat)
    (P : Player → Prop) [DecidablePred P]
    (hex : ∃ q ∈ players, P q ∧ pid = q.id) :
    players.countP (fun q => decide (P q) && (pid == q.id)) = 1 := by
  induction players with
  | nil =>
    rcases hex with ⟨q, hq, _⟩
    cases hq
  | cons q t ih =>
    rw [List.pairwise_cons] at hd
    rw [List.countP_cons]
    by_cases hc : (decide (P q) && (pid == q.id)) = true
    · have hqid : pid = q.id := by
        have hc2 := hc
        rw [Bool.and_eq_true] at hc2
        exact beq_iff_eq.mp hc2.2
      have hzero : t.countP (fun r => decide (P r) && (pid == r.id)) = 0 := by
        rw [List.countP_eq_zero]
        intro r hr hcr
        rw [Bool.and_eq_true] at hcr
        have hrid : pid = r.id := beq_iff_eq.mp hcr.2
        have hne : q.id ≠ r.id := hd.1 r hr
        omega
      rw [hzero, if_pos hc]
    · rw [if_neg hc, Nat.add_zero]
      apply ih hd.2
      rcases hex with ⟨q0, hq0, hP0, hid0⟩
      rcases List.mem_cons.mp hq0 with h | h
      · exfalso
        apply hc
        subst h
        rw [Bool.and_eq_true, decide_eq_true_eq, beq_iff_eq]
        exact ⟨hP0, hid0⟩
      · exact ⟨q0, h, hP0, hid0⟩

/-- The per-participant matched-unit tallies of a unit list sum to the length
of the list, provided each entry belongs to exactly one eligible participant. -/
lemma sum_countP_length (players : List Player) (P : Player → Prop) [DecidablePred P]
    (hd : players.Pairwise (fun a b => a.id ≠ b.id))
    (l : List (Int × Nat)) (hl : ∀ x ∈ l, ∃ q ∈ players, P q ∧ x.2 = q.id) :
    (players.map (fun q => l.countP (fun u => decide (P q) && (u.2 == q.id)))).sum
      = l.length := by
  induction l with
  | nil =>
    have h0 : ∀ q ∈ players,
        ([] : List (Int × Nat)).countP (fun u => decide (P q) && (u.2 == q.id)) = 0 :=
      fun q _ => rfl
    rw [List.map_congr_left h0]
    simp
  | cons a l ih =>
    have hstep : ∀ q ∈ players,
        (a :: l).countP (fun u => decide (P q) && (u.2 == q.id))
          = l.countP (fun u => decide (P q) && (u.2 == q.id))
            + (if (decide (P q) && (a.2 == q.id)) = true then 1 else 0) :=
      fun q _ => List.countP_cons _ _ _
    rw [List.map_congr_left hstep, sum_map_add,
      ih (fun x hx => hl x (List.mem_cons_of_mem a hx)), countP_as_sum,
      countP_eq_one_of players hd a.2 P ?hex, List.length_cons]
    case hex =>
      rcases hl a (List.mem_cons_self a l) with ⟨q, hq, hPq, hida⟩
      exact ⟨q, hq, hPq, hida⟩

lemma mem_take_buyUnits {players : List Player} {price : Int} {n : Nat}
    {x : Int × Nat} (hx : x ∈ (buyUnits players price).take n) :
    ∃ q ∈ players, q.choice = some 1 ∧ x.2 = q.id := by
  have hx2 : x ∈ buyUnits players price := (List.take_sublist n _).mem hx
  have hx3 : x ∈ rawBuyUnits players price := (perm_sortBy _ _).mem_iff.mp hx2
  rcases List.mem_flatten.mp hx3 with ⟨ls, hls, hxls⟩
  rcases List.mem_map.mp hls with ⟨q, hq, hqls⟩
  have := mem_playerBuySlots (hqls ▸ hxls)
  exact ⟨q, hq, this.2, this.1⟩

lemma mem_take_sellUnits {players : List Player} {price : Int} {n : Nat}
    {x : Int × Nat} (hx : x ∈ (sellUnits players price).take n) :
    ∃ q ∈ players, q.choice = some (-1) ∧ x.2 = q.id := by
  have hx2 : x ∈ sellUnits players price := (List.take_sublist n _).mem hx
  have hx3 : x ∈ rawSellUnits players price := (perm_sortBy _ _).mem_iff.mp hx2
  rcases List.mem_flatten.mp hx3 with ⟨ls, hls, hxls⟩
  rcases List.mem_map.mp hls with ⟨q, hq, hqls⟩
  have := mem_playerSellSlots (hqls ▸ hxls)
  exact ⟨q, hq, this.2, this.1⟩

/-- Total matched buy tally equals `trades` (`min` of the two unit-list
lengths): every one of the first `trades` entries of `buy_units` is tallied to
exactly one buyer. -/
lemma sum_buy_matched (players : List Player) (price : Int)
    (hd : players.Pairwise (fun a b => a.id ≠ b.id)) :
    (players.map (fun q =>
      if q.choice = some 1
      then matchedCount (buyUnits players price) (tradesCount players price) q.id
      else 0)).sum = tradesCount players price := by
  have hconv : ∀ q ∈ players,
      (if q.choice = some 1
       then matchedCount (buyUnits players price) (tradesCount players price) q.id
       else 0)
        = ((buyUnits players price).take (tradesCount players price)).countP
            (fun u => decide (q.choice = some 1) && (u.2 == q.id)) := by
    intro q _
    by_cases h : q.choice = some 1
    · simp [matchedCount, h]
    · simp [h]
  rw [List.map_congr_left hconv,
    sum_countP_length players (fun q => q.choice = some 1) hd _
      (fun x hx => mem_take_buyUnits hx),
    List.length_take]
  exact Nat.min_eq_left (Nat.min_le_left _ _)

/-- Total matched sell tally equals `trades`. -/
lemma sum_sell_matched (players : List Player) (price : Int)
    (hd : players.Pairwise (fun a b => a.id ≠ b.id)) :
    (players.map (fun q =>
      if q.choice = some (-1)
      then matchedCount (sellUnits players price) (tradesCount players price) q.id
      else 0)).sum = tradesCount players price := by
  have hconv : ∀ q ∈ players,
      (if q.choice = some (-1)
       then matchedCount (sellUnits players price) (tradesCount players price) q.id
       else 0)
        = ((sellUnits players price).take (tradesCount players price)).countP
            (fun u => decide (q.choice = some (-1)) && (u.2 == q.id)) := by
    intro q _
    by_cases h : q.choice = some (-1)
    · simp [matchedCount, h]
    · simp [h]
  rw [List.map_congr_left hconv,
    sum_countP_length players (fun q => q.choice = some (-1)) hd _
      (fun x hx => mem_take_sellUnits hx),
    List.length_take]
  exact Nat.min_eq_left (Nat.min_le_right _ _)

/-- Core of C4: the matched-unit count of one participant is bounded by the
number of entries they contributed, hence by their declared quantity. -/
lemma matchedUnits_natAbs_le (players : List Player) (price : Int) (p : Player)
    (hd : players.Pairwise (fun a b => a.id ≠ b.id)) (hp : p ∈ players) :
    (matchedUnits players price p).natAbs ≤ qtyN p := by
  unfold matchedUnits
  by_cases h1 : p.choice = some 1
  · rw [if_pos h1, Int.natAbs_ofNat]
    calc matchedCount (buyUnits players price) (tradesCount players price) p.id
        ≤ (buyUnits players price).countP (fun u => u.2 == p.id) :=
          List.Sublist.countP_le _ (List.take_sublist _ _)
      _ = (rawBuyUnits players price).countP (fun u => u.2 == p.id) :=
          (perm_sortBy _ _).countP_eq _
      _ ≤ (playerBuySlots price p).length :=
          countP_flatten_le_of (playerBuySlots price)
            (fun q x hx => (mem_playerBuySlots hx).1) players p hd hp
      _ ≤ qtyN p := length_playerBuySlots_le price p
  · by_cases h2 : p.choice = some (-1)
    · rw [if_neg h1, if_pos h2, Int.natAbs_neg, Int.natAbs_ofNat]
      calc matchedCount (sellUnits players price) (tradesCount players price) p.id
          ≤ (sellUnits players price).countP (fun u => u.2 == p.id) :=
            List.Sublist.countP_le _ (List.take_sublist _ _)
        _ = (rawSellUnits players price).countP (fun u => u.2 == p.id) :=
            (perm_sortBy _ _).countP_eq _
        _ ≤ (playerSellSlots price p).length :=
            countP_flatten_le_of (playerSellSlots price)
              (fun q x hx => (mem_playerSellSlots hx).1) players p hd hp
        _ ≤ qtyN p := length_playerSellSlots_le price p
    · rw [if_neg h1, if_neg h2]
      exact Nat.zero_le _

lemma sum_map_natCast (l : List Player) (f : Player → Nat) :
    (l.map (fun p => ((f p : Nat) : Int))).sum = (((l.map f).sum : Nat) : Int) := by
  induction l with
  | nil => rfl
  | cons a t ih => simp [ih]

/-- The signed matched units decompose as buy tally minus sell tally. -/
lemma matchedUnits_split (players : List Player) (price : Int) (p : Player) :
    matchedUnits players price p
      = ((if p.choice = some 1
          then matchedCount (buyUnits players price) (tradesCount players price) p.id
          else 0 : Nat) : Int)
        - ((if p.choice = some (-1)
            then matchedCount (sellUnits players price) (tradesCount players price) p.id
            else 0 : Nat) : Int) := by
  unfold matchedUnits
  by_cases h1 : p.choice = some 1
  · have h2 : ¬ p.choice = some (-1) := by rw [h1]; simp
    rw [if_pos h1, if_pos h1, if_neg h2]
    simp
  · by_cases h2 : p.choice = some (-1)
    · rw [if_neg h1, if_pos h2, if_neg h1, if_pos h2]
      simp
    · rw [if_neg h1, if_neg h2, if_neg h1, if_neg h2]
      simp

/-- Core of C10: the signed matched units over all participants sum to zero. -/
lemma sum_matchedUnits_zero (players : List Player) (price : Int)
    (hd : players.Pairwise (fun a b => a.id ≠ b.id)) :
    (players.map (fun p => matchedUnits players price p)).sum = 0 := by
  rw [List.map_congr_left (fun p _ => matchedUnits_split players price p),
    sum_map_sub, sum_map_natCast, sum_map_natCast,
    sum_buy_matched players price hd, sum_sell_matched players price hd,
    sub_self]

lemma filter_pos_sum (l : List Player) (f : Player → Int) :
    ((l.filter (fun p => decide (0 < f p))).map f).sum
      = (l.map (fun p => if 0 < f p then f p else 0)).sum := by
  induction l with
  | nil => rfl
  | cons a t ih =>
    by_cases h : 0 < f a <;> simp [List.filter_cons, h, ih]

lemma filter_neg_sum (l : List Player) (f : Player → Int) :
    ((l.filter (fun p => decide (f p < 0))).map (fun p => -(f p))).sum
      = (l.map (fun p => if f p < 0 then -(f p) else 0)).sum := by
  induction l with
  | nil => rfl
  | cons a t ih =>
    by_cases h : f a < 0 <;> simp [List.filter_cons, h, ih]

lemma pos_part_matched (players : List Player) (price : Int) (p : Player) :
    (if 0 < matchedUnits players price p then matchedUnits players price p else 0)
      = ((if p.choice = some 1
          then matchedCount (buyUnits players price) (tradesCount players price) p.id
          else 0 : Nat) : Int) := by
  unfold matchedUnits
  by_cases h1 : p.choice = some 1
  · rw [if_pos h1, if_pos h1]
    split <;> omega
  · by_cases h2 : p.choice = some (-1)
    · rw [if_neg h1, if_pos h2, if_neg h1]
      split <;> omega
    · rw [if_neg h1, if_neg h2, if_neg h1]
      split <;> omega

lemma neg_part_matched (players : List Player) (price : Int) (p : Player) :
    (if matchedUnits players price p < 0 then -(matchedUnits players price p) else 0)
      = ((if p.choice = some (-1)
          then matchedCount (sellUnits players price) (tradesCount players price) p.id
          else 0 : Nat) : Int) := by
  unfold matchedUnits
  by_cases h1 : p.choice = some 1
  · have h2 : ¬ p.choice = some (-1) := by rw [h1]; simp
    rw [if_pos h1, if_neg h2]
    split <;> omega
  · by_cases h2 : p.choice = some (-1)
    · rw [if_neg h1, if_pos h2, if_pos h2]
      split <;> omega
    · rw [if_neg h1, if_neg h2, if_neg h2]
      split <;> omega

/-- Core of C3 at an arbitrary price: total bought units = total sold units. -/
lemma sum_pos_eq_sum_neg (players : List Player) (price : Int)
    (hd : players.Pairwise (fun a b => a.id ≠ b.id)) :
    ((players.filter (fun p => decide (0 < matchedUnits players price p))).map
        (fun p => matchedUnits players price p)).sum
      = ((players.filter (fun p => decide (matchedUnits players price p < 0))).map
        (fun p => -(matchedUnits players price p))).sum := by
  rw [filter_pos_sum, filter_neg_sum,
    List.map_congr_left (fun p _ => pos_part_matched players price p),
    List.map_congr_left (fun p _ => neg_part_matched players price p),
    sum_map_natCast, sum_map_natCast,
    sum_buy_matched players price hd, sum_sell_matched players price hd]

/-! ## Claim theorems: clearing-price optimality and conservation -/

/-- C1 (confirmed).  The clearing price returned by `set_payoffs` is the
price of the domain `[0, MAX_PRICE]` maximising
`trade_volume(p) = min(demand(p), supply(p))`, and among all prices attaining
the maximum it is the lowest (the `np.argmax` first-occurrence tie-break). -/
theorem claim_C1 (gv : Int) (players0 : List Player) (p : Nat) (hp : p ≤ MAX_PRICE) :
    (set_payoffs gv players0).1
      = Int.ofNat (clearingPrice (players0.map defaultUnsubmitted)) ∧
    clearingPrice (players0.map defaultUnsubmitted) ≤ MAX_PRICE ∧
    tradeVolume (players0.map defaultUnsubmitted) p
      ≤ tradeVolume (players0.map defaultUnsubmitted)
          (clearingPrice (players0.map defaultUnsubmitted)) ∧
    (tradeVolume (players0.map defaultUnsubmitted) p
        = tradeVolume (players0.map defaultUnsubmitted)
            (clearingPrice (players0.map defaultUnsubmitted))
      → clearingPrice (players0.map defaultUnsubmitted) ≤ p) :=
  ⟨rfl, argmaxFirst_le _ _, argmaxFirst_ge _ _ p hp,
   fun he => argmaxFirst_firstmax _ _ p hp he⟩

theorem claim_C1_witness :
    7 ≤ MAX_PRICE ∧
    ((set_payoffs 100 marketA).1
        = Int.ofNat (clearingPrice (marketA.map defaultUnsubmitted)) ∧
     clearingPrice (marketA.map defaultUnsubmitted) ≤ MAX_PRICE ∧
     tradeVolume (marketA.map defaultUnsubmitted) 7
       ≤ tradeVolume (marketA.map defaultUnsubmitted)
           (clearingPrice (marketA.map defaultUnsubmitted)) ∧
     (tradeVolume (marketA.map defaultUnsubmitted) 7
         = tradeVolume (marketA.map defaultUnsubmitted)
             (clearingPrice (marketA.map defaultUnsubmitted))
       → clearingPrice (marketA.map defaultUnsubmitted) ≤ 7)) :=
  ⟨by decide, claim_C1 100 marketA 7 (by decide)⟩

/-- Settled rows positive/negative unit sums, over an arbitrary player list. -/
lemma settled_pos_eq_neg (gv price : Int) (players : List Player)
    (hd : players.Pairwise (fun a b => a.id ≠ b.id)) :
    (((players.map (fun p => settlePlayer gv price (matchedUnits players price p) p)).filter
        (fun q => decide (0 < q.unit.getD 0))).map (fun q => q.unit.getD 0)).sum
      = (((players.map (fun p => settlePlayer gv price (matchedUnits players price p) p)).filter
        (fun q => decide (q.unit.getD 0 < 0))).map (fun q => -(q.unit.getD 0))).sum := by
  rw [List.filter_map, List.filter_map, List.map_map, List.map_map]
  exact sum_pos_eq_sum_neg players price hd

/-- C3 (confirmed).  After a clearing run of `set_payoffs`, the sum of
`matched_units` over participants who bought equals the sum of
`-matched_units` over participants who sold.  The hypothesis is the
primary-key invariant: player ids are pairwise distinct. -/
theorem claim_C3 (gv : Int) (players0 : List Player) (hd : DistinctIds players0) :
    (((set_payoffs gv players0).2.filter (fun q => decide (0 < q.unit.getD 0))).map
        (fun q => q.unit.getD 0)).sum
      = (((set_payoffs gv players0).2.filter (fun q => decide (q.unit.getD 0 < 0))).map
        (fun q => -(q.unit.getD 0))).sum := by
  have h2 : (set_payoffs gv players0).2
      = (players0.map defaultUnsubmitted).map
          (fun p => settlePlayer gv
            (Int.ofNat (clearingPrice (players0.map defaultUnsubmitted)))
            (matchedUnits (players0.map defaultUnsubmitted)
              (Int.ofNat (clearingPrice (players0.map defaultUnsubmitted))) p) p) := rfl
  rw [h2]
  exact settled_pos_eq_neg gv
    (Int.ofNat (clearingPrice (players0.map defaultUnsubmitted)))
    (players0.map defaultUnsubmitted)
    (distinct_pairwise (distinct_map_default hd))

theorem claim_C3_witness :
    DistinctIds marketA ∧
    (((set_payoffs 100 marketA).2.filter (fun q => decide (0 < q.unit.getD 0))).map
        (fun q => q.unit.getD 0)).sum
      = (((set_payoffs 100 marketA).2.filter (fun q => decide (q.unit.getD 0 < 0))).map
        (fun q => -(q.unit.getD 0))).sum :=
  ⟨by decide, claim_C3 100 marketA (by decide)⟩

/-- C4 (confirmed).  In a clearing run of `set_payoffs` (participants
defaulted, price the computed clearing price) no participant's matched units
exceed their declared quantity in absolute value.  The hypothesis is the
primary-key invariant on ids. -/
theorem claim_C4 (players0 : List Player) (p : Player)
    (hd : DistinctIds players0) (hp : p ∈ players0.map defaultUnsubmitted) :
    (matchedUnits (players0.map defaultUnsubmitted)
        (Int.ofNat (clearingPrice (players0.map defaultUnsubmitted))) p).natAbs
      ≤ qtyN p :=
  matchedUnits_natAbs_le _ _ p (distinct_pairwise (distinct_map_default hd)) hp

theorem claim_C4_witness :
    (DistinctIds marketA ∧ mkP 1 1 10 ∈ marketA.map defaultUnsubmitted) ∧
    (matchedUnits (marketA.map defaultUnsubmitted)
        (Int.ofNat (clearingPrice (marketA.map defaultUnsubmitted)))
        (mkP 1 1 10)).natAbs ≤ qtyN (mkP 1 1 10) :=
  ⟨⟨by decide, by decide⟩, claim_C4 marketA (mkP 1 1 10) (by decide) (by decide)⟩

/-- C10 (confirmed).  In every clearing run of `set_payoffs` the signed
matched units over all participants sum to zero, and consequently settlement
conserves both class totals: the sums of `money` and of `holdings` over all
participants are unchanged. -/
theorem claim_C10 (gv : Int) (players0 : List Player) (hd : DistinctIds players0) :
    ((players0.map defaultUnsubmitted).map
        (fun p => matchedUnits (players0.map defaultUnsubmitted)
          (Int.ofNat (clearingPrice (players0.map defaultUnsubmitted))) p)).sum = 0 ∧
    ((set_payoffs gv players0).2.map (fun q => q.money)).sum
      = (players0.map (fun p => p.money)).sum ∧
    ((set_payoffs gv players0).2.map (fun q => q.endowment)).sum
      = (players0.map (fun p => p.endowment)).sum := by
  have hdp := distinct_pairwise (distinct_map_default hd)
  have hzero := sum_matchedUnits_zero (players0.map defaultUnsubmitted)
    (Int.ofNat (clearingPrice (players0.map defaultUnsubmitted))) hdp
  refine ⟨hzero, ?_, ?_⟩
  · have h2 : ((set_payoffs gv players0).2.map (fun q => q.money)).sum
        = ((players0.map defaultUnsubmitted).map
            (fun p => p.money
              - matchedUnits (players0.map defaultUnsubmitted)
                  (Int.ofNat (clearingPrice (players0.map defaultUnsubmitted))) p
                * Int.ofNat (clearingPrice (players0.map defaultUnsubmitted)))).sum := by
      rw [show (set_payoffs gv players0).2
          = (players0.map defaultUnsubmitted).map
              (fun p => settlePlayer gv
                (Int.ofNat (clearingPrice (players0.map defaultUnsubmitted)))
                (matchedUnits (players0.map defaultUnsubmitted)
                  (Int.ofNat (clearingPrice (players0.map defaultUnsubmitted))) p) p)
          from rfl, List.map_map]
      rfl
    rw [h2, sum_map_sub, sum_map_mul_right, hzero, zero_mul, sub_zero,
      List.map_map]
    exact congrArg List.sum (List.map_congr_left
      (fun p _ => defaultUnsubmitted_money p))
  · have h2 : ((set_payoffs gv players0).2.map (fun q => q.endowment)).sum
        = ((players0.map defaultUnsubmitted).map
            (fun p => p.endowment
              + matchedUnits (players0.map defaultUnsubmitted)
                  (Int.ofNat (clearingPrice (players0.map defaultUnsubmitted))) p)).sum := by
      rw [show (set_payoffs gv players0).2
          = (players0.map defaultUnsubmitted).map
              (fun p => settlePlayer gv
                (Int.ofNat (clearingPrice (players0.map defaultUnsubmitted)))
                (matchedUnits (players0.map defaultUnsubmitted)
                  (Int.ofNat (clearingPrice (players0.map defaultUnsubmitted))) p) p)
          from rfl, List.map_map]
      rfl
    rw [h2, sum_map_add, hzero, add_zero, List.map_map]
    exact congrArg List.sum (List.map_congr_left
      (fun p _ => defaultUnsubmitted_endowment p))

theorem claim_C10_witness :
    DistinctIds marketA ∧
    (((marketA.map defaultUnsubmitted).map
        (fun p => matchedUnits (marketA.map defaultUnsubmitted)
          (Int.ofNat (clearingPrice (marketA.map defaultUnsubmitted))) p)).sum = 0 ∧
     ((set_payoffs 100 marketA).2.map (fun q => q.money)).sum
       = (marketA.map (fun p => p.money)).sum ∧
     ((set_payoffs 100 marketA).2.map (fun q => q.endowment)).sum
       = (marketA.map (fun p => p.endowment)).sum) :=
  ⟨by decide, claim_C10 100 marketA (by decide)⟩
